import Mathlib

/-!
Verification development for the sdlc-content template engine
(`TemplateRenderer.ts`, `TemplateInheritance.ts`).

Texts are modelled as `List Char`.  JavaScript regular-expression driven
string operations are rendered as deterministic character scanners that
implement exactly the semantics of the concrete regular expressions used
by the source (all of which are backtracking-free because their character
classes are disjoint).  Braces inside string literals are written with
the escapes x7b / x7d.

Modelling notes, applying throughout:
* JS numbers are modelled as integers rendered in decimal.
* JS whitespace is modelled by the ASCII whitespace characters.
* Property lookup (`part in current`) is modelled with the full
  semantics of the JS in operator on the value domain: own properties of
  plain objects, canonical decimal indices plus the length property of
  arrays, and the string-keyed members inherited from the prototype
  chain (Object.prototype behind plain objects, Array.prototype then
  Object.prototype behind arrays), which resolve to native functions or
  the prototype objects themselves.
* The `render` fixpoint while-loop of the source has no bound; the model
  threads an explicit fuel counter, `none` meaning the loop has not
  finished within the given number of iterations.
-/

/-- Texts are lists of characters. -/
abbrev Str := List Char

/-- JS whitespace class (ASCII part), used by the regex class backslash-s
and by trim. -/
def jsSpace (c : Char) : Bool :=
  c = ' ' || c = '\t' || c = '\n' || c = '\r' || c = '\x0b' || c = '\x0c'

/-- JS word-character class backslash-w: ASCII letters, digits, underscore. -/
def isWordChar (c : Char) : Bool :=
  c.isAlphanum || c = '_'

/-- The character class of the variable / condition captures: word chars plus dot. -/
def isWordDot (c : Char) : Bool :=
  isWordChar c || c = '.'

/-- Length of the maximal prefix satisfying p (greedy class repetition). -/
def countWhile (p : Char → Bool) : Str → Nat
  | [] => 0
  | c :: rest => if p c then countWhile p rest + 1 else 0

/-- First index at which needle occurs in hay (String.indexOf). -/
def findSub (needle : Str) : Str → Option Nat
  | [] => if needle.isPrefixOf ([] : Str) then some 0 else none
  | c :: t => if needle.isPrefixOf (c :: t) then some 0 else (findSub needle t).map (· + 1)

/-- JS String.prototype.trim (whitespace from both ends). -/
def jsTrim (s : Str) : Str :=
  ((s.dropWhile (fun c => jsSpace c)).reverse.dropWhile (fun c => jsSpace c)).reverse

mutual
/-- Tagged model of the dynamically typed environment values: the closed
variant scalar / list / mapping plus the two distinguished non-values
undefined and null, together with the values a walk can reach through
the prototype chain: a native function inherited from a prototype
(carrying the function's name), the Object.prototype object, and the
Array.prototype array (an array of length zero). -/
inductive Value where
  | undefined
  | vnull
  | bool (b : Bool)
  | num (n : Int)
  | str (s : Str)
  | list (items : VList)
  | obj (fields : KVList)
  | nativeFn (name : Str)
  | objectProto
  | arrayProto

/-- Lists of values (JS arrays). -/
inductive VList where
  | nil
  | cons (v : Value) (rest : VList)

/-- Key-value mappings (JS plain objects), keys in insertion order. -/
inductive KVList where
  | nil
  | cons (k : Str) (v : Value) (rest : KVList)
end

/-- The variable environment is a mapping (`Record<string, unknown>`). -/
abbrev Env := KVList

/-- Own-property lookup on a mapping: first binding wins. -/
def kvLookup : KVList → Str → Option Value
  | .nil, _ => none
  | .cons k v rest, key => if k = key then some v else kvLookup rest key

/-- Number of entries of a value list. -/
def vlen : VList → Nat
  | .nil => 0
  | .cons _ rest => vlen rest + 1

/-- Entry of a value list at an index. -/
def vget : VList → Nat → Option Value
  | .nil, _ => none
  | .cons v _, 0 => some v
  | .cons _ rest, n + 1 => vget rest n

/-- path.split with separator dot, keeping empty segments (JS split). -/
def splitPath : Str → List Str
  | [] => [[]]
  | c :: rest =>
    let ps := splitPath rest
    if c = '.' then [] :: ps
    else
      match ps with
      | p :: ps2 => (c :: p) :: ps2
      | [] => [[c]]

/-- Decimal digits of a natural number (used for array keys and number
rendering). -/
def natStr (n : Nat) : Str :=
  Nat.toDigits 10 n

/-- Decimal rendering of an integer. -/
def intStr (i : Int) : Str :=
  if i < 0 then '-' :: natStr i.natAbs else natStr i.natAbs

/-- Parses a canonical decimal array index (the form JS array keys take:
either the single digit 0, or a digit string without a leading zero). -/
def canonIndex (s : Str) : Option Nat :=
  match s with
  | [] => none
  | ['0'] => some 0
  | c :: rest =>
    if '1' ≤ c && c ≤ '9' && rest.all (fun d => d.isDigit) then
      some ((c :: rest).foldl (fun acc d => acc * 10 + (d.toNat - '0'.toNat)) 0)
    else none

/-- String-keyed members of Object.prototype other than __proto__ and
constructor, per ECMA-262 including the Annex B accessors; the JS in
operator sees them on every plain object. -/
def objProtoMethods : List Str :=
  ["hasOwnProperty".data, "isPrototypeOf".data, "propertyIsEnumerable".data,
   "toLocaleString".data, "toString".data, "valueOf".data,
   "__defineGetter__".data, "__defineSetter__".data,
   "__lookupGetter__".data, "__lookupSetter__".data]

/-- String-keyed method names of Array.prototype per ECMA-262; the JS in
operator sees them on every array, before the Object.prototype chain. -/
def arrProtoMethods : List Str :=
  ["at".data, "concat".data, "copyWithin".data, "entries".data, "every".data,
   "fill".data, "filter".data, "find".data, "findIndex".data, "findLast".data,
   "findLastIndex".data, "flat".data, "flatMap".data, "forEach".data,
   "includes".data, "indexOf".data, "join".data, "keys".data,
   "lastIndexOf".data, "map".data, "pop".data, "push".data, "reduce".data,
   "reduceRight".data, "reverse".data, "shift".data, "slice".data,
   "some".data, "sort".data, "splice".data, "toLocaleString".data,
   "toReversed".data, "toSorted".data, "toSpliced".data, "toString".data,
   "unshift".data, "values".data, "with".data]

/-- Prototype-chain hit behind a plain object: the value the segment
denotes on Object.prototype (the prototype object itself for __proto__,
the Object constructor, or an inherited native method), if any. -/
def objProtoHit (part : Str) : Option Value :=
  if part = "__proto__".data then some .objectProto
  else if part = "constructor".data then some (.nativeFn "Object".data)
  else if part ∈ objProtoMethods then some (.nativeFn part)
  else none

/-- Prototype-chain hit behind an array: Array.prototype for __proto__,
the Array constructor, an array method, or further up an inherited
Object.prototype method, if any. -/
def arrProtoHit (part : Str) : Option Value :=
  if part = "__proto__".data then some .arrayProto
  else if part = "constructor".data then some (.nativeFn "Array".data)
  else if part ∈ arrProtoMethods then some (.nativeFn part)
  else if part ∈ objProtoMethods then some (.nativeFn part)
  else none

/-- Own-property lookup on an array: its canonical decimal indices and
length. -/
def listOwnLookup (items : VList) (part : Str) : Option Value :=
  if part = "length".data then some (.num (vlen items))
  else
    match canonIndex part with
    | some i => vget items i
    | none => none

/-- Walk of getNestedValue along the split path: a step succeeds when
the current value is truthy and object-typed and the segment is visible
to the JS in operator — an own property, or a member inherited from the
prototype chain (Object.prototype behind plain objects, Array.prototype
then Object.prototype behind arrays); otherwise the walk degrades to
undefined.  Scalars, null, undefined and native functions (typeof
function, not object) own nothing and end the walk. -/
def gnvGo : Value → List Str → Value
  | cur, [] => cur
  | cur, part :: parts =>
    match cur with
    | .obj kvs =>
      match kvLookup kvs part with
      | some v => gnvGo v parts
      | none =>
        match objProtoHit part with
        | some v => gnvGo v parts
        | none => .undefined
    | .list items =>
      match listOwnLookup items part with
      | some v => gnvGo v parts
      | none =>
        match arrProtoHit part with
        | some v => gnvGo v parts
        | none => .undefined
    | .objectProto =>
      if part = "__proto__".data then gnvGo .vnull parts
      else
        match objProtoHit part with
        | some v => gnvGo v parts
        | none => .undefined
    | .arrayProto =>
      if part = "length".data then gnvGo (.num 0) parts
      else if part = "__proto__".data then gnvGo .objectProto parts
      else
        match arrProtoHit part with
        | some v => gnvGo v parts
        | none => .undefined
    | _ => .undefined

/-- getNestedValue (TemplateRenderer.ts lines 259-272): resolves a dotted
path against the environment, starting from the environment record
itself. -/
def getNestedValue (env : Env) (path : Str) : Value :=
  gnvGo (.obj env) (splitPath path)

/-- isTruthy (TemplateRenderer.ts lines 341-348): null and undefined are
false, booleans are themselves, numbers are truthy iff nonzero, strings
and arrays iff nonempty, every remaining object is truthy.  The
prototype-chain values follow the same rules: a native function reaches
the final return true, Object.prototype is a plain object (true), and
Array.prototype is an array of length zero (false). -/
def isTruthy : Value → Bool
  | .vnull => false
  | .undefined => false
  | .bool b => b
  | .num n => n != 0
  | .str s => !s.isEmpty
  | .list items => !(vlen items == 0)
  | .obj _ => true
  | .nativeFn _ => true
  | .objectProto => true
  | .arrayProto => false

mutual
/-- JS String() conversion of a value, as used when substituting a
variable reference. -/
def jsString : Value → Str
  | .undefined => "undefined".data
  | .vnull => "null".data
  | .bool true => "true".data
  | .bool false => "false".data
  | .num n => intStr n
  | .str s => s
  | .list items => arrString items
  | .obj _ => "[object Object]".data
  | .nativeFn name => "function ".data ++ name ++ "() \x7b [native code] \x7d".data
  | .objectProto => "[object Object]".data
  | .arrayProto => []

/-- Array toString: elements joined with commas, null and undefined
rendering as empty. -/
def arrString : VList → Str
  | .nil => []
  | .cons v rest =>
    let s := match v with
      | .undefined => []
      | .vnull => []
      | _ => jsString v
    match rest with
    | .nil => s
    | _ => s ++ ',' :: arrString rest
end

/-- Substitution of one variable reference: the resolved value's String()
form, or empty text when it resolves to undefined. -/
def substVal (env : Env) (cap : Str) : Str :=
  match getNestedValue env (jsTrim cap) with
  | .undefined => []
  | v => jsString v

/-- Match of the variable reference pattern at the start of s: two open
braces, optional whitespace, a nonempty run of word or dot characters
(the capture), optional whitespace, two close braces.  Returns the raw
capture and the total matched length. -/
def matchVar (s : Str) : Option (Str × Nat) :=
  if "\x7b\x7b".data.isPrefixOf s then
    let r2 := s.drop 2
    let sp1 := countWhile jsSpace r2
    let w := countWhile isWordDot (r2.drop sp1)
    if w = 0 then none
    else
      let sp2 := countWhile jsSpace (r2.drop (sp1 + w))
      if "\x7d\x7d".data.isPrefixOf (r2.drop (sp1 + w + sp2)) then
        some (r2.take (sp1 + w + sp2), sp1 + w + sp2 + 4)
      else none
  else none

/-- processVariables scan (TemplateRenderer.ts lines 252-257): global
regex replace; the skip counter realises continuing after a match
without rescanning the replacement. -/
def pvGo (env : Env) : Str → Nat → Str
  | [], _ => []
  | _ :: rest, k + 1 => pvGo env rest k
  | c :: rest, 0 =>
    match matchVar (c :: rest) with
    | some (cap, len) => substVal env cap ++ pvGo env rest (len - 1)
    | none => c :: pvGo env rest 0

/-- processVariables: substitute every variable reference. -/
def processVariables (env : Env) (s : Str) : Str := pvGo env s 0

/-- Final cleanup scan (render line 38): every remaining variable
reference is replaced by empty text. -/
def svGo : Str → Nat → Str
  | [], _ => []
  | _ :: rest, k + 1 => svGo rest k
  | c :: rest, 0 =>
    match matchVar (c :: rest) with
    | some (_, len) => svGo rest (len - 1)
    | none => c :: svGo rest 0

/-- Cleanup of unmatched variable markers after the fixpoint loop. -/
def stripVars (s : Str) : Str := svGo s 0

/-- Match of the conditional pattern at the start of s: the if opener
with its condition capture, then the lazily matched body up to the first
following close marker.  Returns condition, body and total length. -/
def matchIf (s : Str) : Option (Str × Str × Nat) :=
  if "\x7b\x7b#if".data.isPrefixOf s then
    let r := s.drop 5
    let sp := countWhile jsSpace r
    if sp = 0 then none
    else
      let w := countWhile isWordDot (r.drop sp)
      if w = 0 then none
      else
        if "\x7d\x7d".data.isPrefixOf (r.drop (sp + w)) then
          let body0 := r.drop (sp + w + 2)
          match findSub "\x7b\x7b/if\x7d\x7d".data body0 with
          | some b => some ((r.drop sp).take w, body0.take b, 5 + sp + w + 2 + b + 7)
          | none => none
        else none
  else none

/-- processConditionals scan (TemplateRenderer.ts lines 159-171): global
regex replace keeping the body of a truthy conditional and deleting a
falsy one. -/
def pcGo (env : Env) : Str → Nat → Str
  | [], _ => []
  | _ :: rest, k + 1 => pcGo env rest k
  | c :: rest, 0 =>
    match matchIf (c :: rest) with
    | some (cond, body, len) =>
      (if isTruthy (getNestedValue env (jsTrim cond)) then body else []) ++ pcGo env rest (len - 1)
    | none => c :: pcGo env rest 0

/-- processConditionals: evaluate every (lazily matched) conditional block. -/
def processConditionals (env : Env) (s : Str) : Str := pcGo env s 0

/-- The loop opening marker. -/
def eachOpen : Str := "\x7b\x7b#each".data

/-- The loop closing marker. -/
def eachClose : Str := "\x7b\x7b/each\x7d\x7d".data

/-- Anchored parse of the loop header body pattern: whitespace, source
path capture (word or dot chars), whitespace, the literal as,
whitespace, item name capture (word chars). -/
def parseEachAt (h : Str) : Option (Str × Str) :=
  let sp1 := countWhile jsSpace h
  if sp1 = 0 then none
  else
    let v := countWhile isWordDot (h.drop sp1)
    if v = 0 then none
    else
      let sp2 := countWhile jsSpace (h.drop (sp1 + v))
      if sp2 = 0 then none
      else
        let r := h.drop (sp1 + v + sp2)
        if "as".data.isPrefixOf r then
          let sp3 := countWhile jsSpace (r.drop 2)
          if sp3 = 0 then none
          else
            let w := countWhile isWordChar (r.drop (2 + sp3))
            if w = 0 then none
            else some ((h.drop sp1).take v, (r.drop (2 + sp3)).take w)
        else none

/-- Unanchored search of the header pattern inside the sliced loop
header (header.match of processLoops). -/
def parseEachHeader : Str → Option (Str × Str)
  | [] => none
  | c :: rest =>
    match parseEachAt (c :: rest) with
    | some p => some p
    | none => parseEachHeader rest

/-- findMatchingEnd scan (TemplateRenderer.ts lines 175-196): from the
body start, each further loop opener increments and each closer
decrements the depth counter initialised to 1; the closer reaching depth
zero ends the block.  The skip counter realises the position jumps of
the source; the returned offset is the end of the matching closer
relative to the scanned text. -/
def fmeGo : Str → Nat → Nat → Option Nat
  | [], _ + 1, _ => none
  | _ :: rest, k + 1, depth => (fmeGo rest k depth).map (· + 1)
  | s, 0, depth =>
    match findSub eachOpen s, findSub eachClose s with
    | _, none => none
    | some a, some b =>
      if a < b then
        match s with
        | [] => none
        | _ :: rest => (fmeGo rest (a + 6) (depth + 1)).map (· + 1)
      else
        if depth = 1 then some (b + 9)
        else
          match s with
          | [] => none
          | _ :: rest => (fmeGo rest (b + 8) (depth - 1)).map (· + 1)
    | none, some b =>
      if depth = 1 then some (b + 9)
      else
        match s with
        | [] => none
        | _ :: rest => (fmeGo rest (b + 8) (depth - 1)).map (· + 1)

/-- Depth-aware matching end for a loop body. -/
def findMatchingEnd (s : Str) : Option Nat := fmeGo s 0 1

/-- Iteration of a loop body: one full recursive render per element with
the item name bound in a derived environment. -/
def renderEach (render1 : Env → Str → Option Str) (env : Env) (content : Str) (itemName : Str) :
    VList → Option Str
  | .nil => some []
  | .cons item rest => do
    let r ← render1 (.cons itemName item env) content
    let rs ← renderEach render1 env content itemName rest
    pure (r ++ rs)

/-- processLoops scan (TemplateRenderer.ts lines 173-250), parameterised
by the recursive render used on loop bodies.  The skip counter realises
the lastPos jumps of the source. -/
def pLGo (render1 : Env → Str → Option Str) (env : Env) : Str → Nat → Option Str
  | [], _ => some []
  | _ :: rest, k + 1 => pLGo render1 env rest k
  | c :: rest, 0 =>
    match findSub eachOpen (c :: rest) with
    | none => some (c :: rest)
    | some (_ + 1) => (pLGo render1 env rest 0).map (c :: ·)
    | some 0 =>
      let s := c :: rest
      match findSub "\x7d\x7d".data s with
      | none => some s
      | some he =>
        match parseEachHeader ((s.take he).drop 7) with
        | none => (pLGo render1 env rest (he + 1)).map (fun out => s.take (he + 2) ++ out)
        | some (arrayVar, itemName) =>
          match findMatchingEnd (s.drop (he + 2)) with
          | none => some s
          | some endRel => do
            let content := (s.drop (he + 2)).take (endRel - 9)
            let body ← match getNestedValue env (jsTrim arrayVar) with
              | .list items => renderEach render1 env content itemName items
              | _ => some []
            let out ← pLGo render1 env rest (he + 2 + endRel - 1)
            pure (body ++ out)

/-- One fixpoint pass of render (lines 32-34): loops, then conditionals,
then variables. -/
def passOnceW (render1 : Env → Str → Option Str) (env : Env) (t : Str) : Option Str := do
  let a ← pLGo render1 env t 0
  pure (processVariables env (processConditionals env a))

/-- The while-loop of render (lines 28-35), parameterised by the
recursive render used for loop bodies; the fuel bounds the number of
re-evaluation passes, there being no bound in the source. -/
def renderLoopW (render1 : Env → Str → Option Str) : Nat → Env → Str → Str → Option Str
  | 0, _, prev, result => if result = prev then some result else none
  | n + 1, env, prev, result =>
    if result = prev then some result
    else do
      let r ← passOnceW render1 env result
      renderLoopW render1 n env result r

/-- render (TemplateRenderer.ts lines 20-42): re-evaluate the three
passes until the text stabilises, then strip remaining variable
markers.  none means the computation has not finished within the given
fuel. -/
def renderF : Nat → Env → Str → Option Str
  | 0, _, _ => none
  | n + 1, env, t => (renderLoopW (fun e s => renderF n e s) n env [] t).map stripVars

/-- Anchored match of the full loop regex of extractVariables: opener,
whitespace, source path capture, whitespace, as, whitespace, item name,
the closing braces, then the lazily matched body up to the first loop
closer.  Returns the source path capture and the total length. -/
def matchEachRx (s : Str) : Option (Str × Nat) :=
  if eachOpen.isPrefixOf s then
    let r := s.drop 7
    let sp1 := countWhile jsSpace r
    if sp1 = 0 then none
    else
      let v := countWhile isWordDot (r.drop sp1)
      if v = 0 then none
      else
        let sp2 := countWhile jsSpace (r.drop (sp1 + v))
        if sp2 = 0 then none
        else
          let r2 := r.drop (sp1 + v + sp2)
          if "as".data.isPrefixOf r2 then
            let sp3 := countWhile jsSpace (r2.drop 2)
            if sp3 = 0 then none
            else
              let w := countWhile isWordChar (r2.drop (2 + sp3))
              if w = 0 then none
              else
                if "\x7d\x7d".data.isPrefixOf (r2.drop (2 + sp3 + w)) then
                  let bodyStart := 7 + sp1 + v + sp2 + 2 + sp3 + w + 2
                  match findSub eachClose (s.drop bodyStart) with
                  | some b => some ((r.drop sp1).take v, bodyStart + b + 9)
                  | none => none
                else none
          else none
  else none

/-- Successive trimmed captures of the variable pattern over the whole
text (the exec loop of extractVariables, lines 122-125). -/
def varCaps : Str → Nat → List Str
  | [], _ => []
  | _ :: rest, k + 1 => varCaps rest k
  | c :: rest, 0 =>
    match matchVar (c :: rest) with
    | some (cap, len) => jsTrim cap :: varCaps rest (len - 1)
    | none => varCaps rest 0

/-- Successive trimmed condition captures of the conditional pattern
(lines 131-134): matches are non-overlapping, a match consuming its
whole block up to the first close marker. -/
def condCaps : Str → Nat → List Str
  | [], _ => []
  | _ :: rest, k + 1 => condCaps rest k
  | c :: rest, 0 =>
    match matchIf (c :: rest) with
    | some (cond, _, len) => jsTrim cond :: condCaps rest (len - 1)
    | none => condCaps rest 0

/-- Successive trimmed source path captures of the loop pattern
(lines 137-140). -/
def loopCaps : Str → Nat → List Str
  | [], _ => []
  | _ :: rest, k + 1 => loopCaps rest k
  | c :: rest, 0 =>
    match matchEachRx (c :: rest) with
    | some (src, len) => jsTrim src :: loopCaps rest (len - 1)
    | none => loopCaps rest 0

/-- Order-preserving de-duplication (the insertion-order Set of
extractVariables and the tag union Set). -/
def dedupAcc {α : Type} [DecidableEq α] : List α → List α → List α
  | _, [] => []
  | seen, x :: rest =>
    if x ∈ seen then dedupAcc seen rest else x :: dedupAcc (x :: seen) rest

/-- Validation contract of a template variable (IVariableValidation). -/
structure VarValidation where
  pattern : Option Str
  min : Option Int
  max : Option Int
  enum : Option VList

/-- Declared template variable (ITemplateVariable). -/
structure TemplateVar where
  name : Str
  description : Str
  type : Str
  required : Bool
  default : Option Value := none
  validation : Option VarValidation := none

/-- Default variable definition created for one collected name
(lines 145-150): type string, required true. -/
def mkVar (nm : Str) : TemplateVar :=
  { name := nm
    description := "Variable ".data ++ nm ++ " used in template".data
    type := "string".data
    required := true }

/-- extractVariables (TemplateRenderer.ts lines 114-157): the trimmed
captures of the three scans, de-duplicated in first-occurrence order,
each yielding a definition defaulting to type string, required true. -/
def extractVariables (t : Str) : List TemplateVar :=
  (dedupAcc [] (varCaps t 0 ++ condCaps t 0 ++ loopCaps t 0)).map mkVar

/-- SDLC template record (ISDLCTemplate); vars models the variables
array, whose name Lean reserves. -/
structure Template where
  id : Str
  name : Str
  category : Str
  phase : Option Str := none
  version : Str
  description : Str
  vars : List TemplateVar
  content : Str
  parent : Option Str := none
  tags : Option (List Str) := none

/-- One step of the variable merge fold (lines 155-165): the first
parent entry with the child entry's name is replaced in place
(findIndex plus assignment), otherwise the child entry is pushed at the
end. -/
def replaceOrAppend : List TemplateVar → TemplateVar → List TemplateVar
  | [], cv => [cv]
  | v :: rest, cv => if v.name = cv.name then cv :: rest else v :: replaceOrAppend rest cv

/-- mergeVariables (TemplateInheritance.ts lines 148-168): parent
entries seeded, each child entry replacing in place or appending. -/
def mergeVariables (parentVars childVars : List TemplateVar) : List TemplateVar :=
  childVars.foldl replaceOrAppend parentVars

/-- mergeTags (lines 170-173): insertion-order set union. -/
def mergeTags (parentTags childTags : List Str) : List Str :=
  dedupAcc [] (parentTags ++ childTags)

/-- Match of the parent splice marker at the start of s: open braces,
greater-than, optional whitespace, the word parent, optional whitespace,
close braces.  Returns the total matched length. -/
def matchSplice (s : Str) : Option Nat :=
  if "\x7b\x7b>".data.isPrefixOf s then
    let r := s.drop 3
    let sp1 := countWhile jsSpace r
    if "parent".data.isPrefixOf (r.drop sp1) then
      let sp2 := countWhile jsSpace (r.drop (sp1 + 6))
      if "\x7d\x7d".data.isPrefixOf (r.drop (sp1 + 6 + sp2)) then some (3 + sp1 + 6 + sp2 + 2)
      else none
    else none
  else none

/-- JS replacement-pattern expansion: when replace receives a string
replacement, a dollar followed by dollar, ampersand, backquote or quote
is substituted by a literal dollar, the matched text, the text before
the match, or the text after the match; any other dollar stays
literal. -/
def expandDollar (matched pre suf : Str) : Str → Str
  | [] => []
  | c :: rest =>
    if c = '$' then
      match rest with
      | [] => ['$']
      | c2 :: rest2 =>
        if c2 = '$' then '$' :: expandDollar matched pre suf rest2
        else if c2 = '&' then matched ++ expandDollar matched pre suf rest2
        else if c2 = '\x60' then pre ++ expandDollar matched pre suf rest2
        else if c2 = '\x27' then suf ++ expandDollar matched pre suf rest2
        else '$' :: c2 :: expandDollar matched pre suf rest2
    else c :: expandDollar matched pre suf rest

/-- mergeContent scan: global replace of the splice marker in the child
content by the parent content used as a JS string replacement (so
subject to dollar expansion).  pos tracks the absolute position for the
before-the-match text. -/
def mcGo (repl orig : Str) : Str → Nat → Nat → Str
  | [], _, _ => []
  | _ :: rest, pos, k + 1 => mcGo repl orig rest (pos + 1) k
  | c :: rest, pos, 0 =>
    match matchSplice (c :: rest) with
    | some len =>
      expandDollar ((c :: rest).take len) (orig.take pos) ((c :: rest).drop len) repl
        ++ mcGo repl orig rest (pos + 1) (len - 1)
    | none => c :: mcGo repl orig rest (pos + 1) 0

/-- mergeContent (TemplateInheritance.ts lines 175-178):
childContent.replace of the splice pattern by the parent content. -/
def mergeContent (parentContent childContent : Str) : Str :=
  mcGo parentContent childContent childContent 0 0

/-- Specification-side splice for the refinement comparison: the spec's
words say every parent-splice marker in the child content is replaced by
the parent content itself, taken literally. -/
def mcSpecGo (repl : Str) : Str → Nat → Str
  | [], _ => []
  | _ :: rest, k + 1 => mcSpecGo repl rest k
  | c :: rest, 0 =>
    match matchSplice (c :: rest) with
    | some len => repl ++ mcSpecGo repl rest (len - 1)
    | none => c :: mcSpecGo repl rest 0

/-- Literal splice following the specification text. -/
def mergeContentSpec (parentContent childContent : Str) : Str :=
  mcSpecGo parentContent childContent 0

/-- JS truthiness of the optional phase string (the or-chains of the
phase handling in mergeTemplates). -/
def phTruthy : Option Str → Bool
  | some s => !s.isEmpty
  | none => false

/-- mergeTemplates (TemplateInheritance.ts lines 84-111): object spread
of parent then child (child owning every required scalar field), the
merged arrays and content, the child's parent reference preserved, and
the explicit phase fallback executed when either phase is truthy. -/
def mergeTemplates (parent child : Template) : Template :=
  { id := child.id
    name := child.name
    category := child.category
    version := child.version
    description := child.description
    vars := mergeVariables parent.vars child.vars
    tags := some (mergeTags (parent.tags.getD []) (child.tags.getD []))
    content := mergeContent parent.content child.content
    parent := child.parent
    phase :=
      if phTruthy parent.phase || phTruthy child.phase then
        (if phTruthy child.phase then child.phase else parent.phase)
      else
        match child.phase with
        | some p => some p
        | none => parent.phase }

/-- The template store consumed through the template getter, modelled as
an association list. -/
abbrev Store := List (Str × Template)

/-- Store lookup by id. -/
def storeGet : Store → Str → Option Template
  | [], _ => none
  | (k, t) :: rest, id => if k = id then some t else storeGet rest id

/-- Failures of the chain walk: a repeated id, or (model only) fuel
exhaustion, which the development proves unreachable at the fuel used. -/
inductive ChainErr where
  | circular (id : Str)
  | fuelOut
  deriving DecidableEq

/-- The while-loop of getInheritanceChain (lines 124-138): follow parent
links, recording each visited id, failing at the first repeated id. -/
def chainGo (store : Store) : Nat → Str → List Str → List Str → Except ChainErr (List Str)
  | 0, _, _, _ => .error .fuelOut
  | fuel + 1, currentId, visited, chain =>
    match storeGet store currentId with
    | none => .ok chain
    | some t =>
      match t.parent with
      | none => .ok chain
      | some p =>
        if p ∈ visited then .error (.circular p)
        else chainGo store fuel p (p :: visited) (chain ++ [p])

/-- getInheritanceChain (TemplateInheritance.ts lines 113-146): the walk
started at id with id visited, at a fuel the development proves
sufficient for every store. -/
def getInheritanceChain (store : Store) (id : Str) : Except ChainErr (List Str) :=
  chainGo store (store.length + 2) id [id] [id]

/-- Failures of resolveTemplate. -/
inductive RErr where
  | missing (id : Str)
  | chainFail (e : ChainErr)
  | missingInChain (id : Str)
  | resolveFailed
  deriving DecidableEq

/-- The root-to-leaf merge fold of resolveTemplate (lines 57-75) over
the reversed chain. -/
def foldChain (store : Store) : List Str → Option Template → Except RErr Template
  | [], none => .error .resolveFailed
  | [], some r => .ok r
  | i :: rest, acc =>
    match storeGet store i with
    | none => .error (.missingInChain i)
    | some cur =>
      foldChain store rest (some (match acc with
        | none => cur
        | some r => mergeTemplates r cur))

/-- resolveTemplate (TemplateInheritance.ts lines 23-82), without the
memoisation cache (the cache only replays previously computed results
for a fresh resolver): a parentless template is returned as stored,
otherwise the inheritance chain is built and folded root to leaf. -/
def resolveTemplate (store : Store) (id : Str) : Except RErr Template :=
  match storeGet store id with
  | none => .error (.missing id)
  | some t =>
    match t.parent with
    | none => .ok t
    | some _ =>
      match getInheritanceChain store id with
      | .error e => .error (.chainFail e)
      | .ok chain => foldChain store chain.reverse none

/-- Consecutive-link check of a full chain: every id but the last names
a stored template whose parent is the next id, and the last either is
absent from the store or has no parent. -/
def parentLinked (store : Store) : List Str → Bool
  | [] => true
  | [x] =>
    match storeGet store x with
    | none => true
    | some t => t.parent == none
  | x :: y :: rest =>
    (match storeGet store x with
     | none => false
     | some t => t.parent == some y) && parentLinked store (y :: rest)

instance exceptDecEq {e a : Type} [DecidableEq e] [DecidableEq a] : DecidableEq (Except e a)
  | .ok x, .ok y =>
    if h : x = y then .isTrue (congrArg Except.ok h)
    else .isFalse (fun hh => h (Except.ok.inj hh))
  | .error x, .error y =>
    if h : x = y then .isTrue (congrArg Except.error h)
    else .isFalse (fun hh => h (Except.error.inj hh))
  | .ok _, .error _ => .isFalse (fun hh => Except.noConfusion hh)
  | .error _, .ok _ => .isFalse (fun hh => Except.noConfusion hh)

/-- Fixture template constructor for concrete stores. -/
def mkT (id : Str) (parent : Option Str) (content : Str) : Template :=
  { id := id
    name := id
    category := "document".data
    version := "1.0.0".data
    description := []
    vars := []
    content := content
    parent := parent }

/-- Cyclically self-referential environment: x renders to a reference to
y and y to a reference to x. -/
def cycEnv : Env :=
  .cons "x".data (.str "\x7b\x7by\x7d\x7d".data)
    (.cons "y".data (.str "\x7b\x7bx\x7d\x7d".data) .nil)

/-- The template referencing x. -/
def tX : Str := "\x7b\x7bx\x7d\x7d".data

/-- The template referencing y. -/
def tY : Str := "\x7b\x7by\x7d\x7d".data

/-- Conditional template whose body holds a nested conditional:
open if a, open if b, X, close if, Y, close if. -/
def nestedIfT : Str :=
  "\x7b\x7b#if a\x7d\x7d\x7b\x7b#if b\x7d\x7dX\x7b\x7b/if\x7d\x7dY\x7b\x7b/if\x7d\x7d".data

/-- Environment for the depth-matching demonstrations: xs a two-element
list, ys a one-element list, f true. -/
def loopEnv : Env :=
  .cons "xs".data (.list (.cons (.str "a".data) (.cons (.str "b".data) .nil)))
    (.cons "ys".data (.list (.cons (.str "1".data) .nil))
      (.cons "f".data (.bool true) .nil))

/-- Environment binding a to true. -/
def envATrue : Env := .cons "a".data (.bool true) .nil

/-- Template exercising the extraction scans: a loop over xs binding x
with a body referencing x, followed by a conditional on a whose body
holds a nested conditional on b. -/
def extractT : Str :=
  "\x7b\x7b#each xs as x\x7d\x7d\x7b\x7bx\x7d\x7d\x7b\x7b/each\x7d\x7d\x7b\x7b#if a\x7d\x7d\x7b\x7b#if b\x7d\x7dY\x7b\x7b/if\x7d\x7d\x7b\x7b/if\x7d\x7d".data

/-- Environment binding x to the literal text of a reference to x, so
substituting x reproduces the marker verbatim. -/
def selfEnv : Env := .cons "x".data (.str "\x7b\x7bx\x7d\x7d".data) .nil

/-- Template whose inner reference to x sits inside an outer pair of
double braces around the letters a and b. -/
def selfT : Str := "\x7b\x7ba\x7b\x7bx\x7d\x7db\x7d\x7d".data

/-- Values the walk cannot step through in getNestedValue: the undefined
and null sentinels (falsy), every scalar, and native functions, whose
typeof is function rather than object. -/
def noProps : Value → Bool
  | .undefined => true
  | .vnull => true
  | .bool _ => true
  | .num _ => true
  | .str _ => true
  | .nativeFn _ => true
  | .list _ => false
  | .obj _ => false
  | .objectProto => false
  | .arrayProto => false

/-- Environment whose xs is a one-element list. -/
def envXs : Env := .cons "xs".data (.list (.cons (.str "a".data) .nil)) .nil

/-- Environment binding only name to Jo. -/
def joEnv : Env := .cons "name".data (.str "Jo".data) .nil

/-- Three-generation store: a root, b splicing its parent before B, c
splicing its parent before C. -/
def gcStore : Store :=
  [("a".data, mkT "a".data none "A".data),
   ("b".data, mkT "b".data (some "a".data) "\x7b\x7b> parent\x7d\x7dB".data),
   ("c".data, mkT "c".data (some "b".data) "\x7b\x7b> parent\x7d\x7dC".data)]

/-- Consecutive-link check of a partial chain (the last element's
termination condition not yet required). -/
def linkedPrefix (store : Store) : List Str → Bool
  | [] => true
  | [_] => true
  | x :: y :: rest =>
    (match storeGet store x with
     | none => false
     | some t => t.parent == some y) && linkedPrefix store (y :: rest)

/-- Two-template store with a parent cycle id1 to id2 to id1. -/
def cycStore : Store :=
  [("id1".data, mkT "id1".data (some "id2".data) []),
   ("id2".data, mkT "id2".data (some "id1".data) [])]

/-- Acyclic two-template store, b inheriting from the root a. -/
def c10Store : Store :=
  [("a".data, mkT "a".data none "A".data),
   ("b".data, mkT "b".data (some "a".data) "B".data)]

example : getNestedValue (.cons "name".data (.str "Jo".data) .nil) "name".data = .str "Jo".data := rfl

example : getNestedValue (.cons "a".data (.obj (.cons "b".data (.num 3) .nil)) .nil) "a.b".data = .num 3 := rfl

example : getNestedValue (.cons "a".data (.num 1) .nil) "a.b".data = .undefined := rfl

example : getNestedValue (.cons "xs".data (.list (.cons (.str "a".data) .nil)) .nil) "xs.0".data = .str "a".data := rfl

example : getNestedValue (.cons "xs".data (.list (.cons (.str "a".data) .nil)) .nil) "xs.length".data = .num 1 := rfl

example : jsString (.list (.cons (.str "a".data) (.cons (.num 3) .nil))) = "a,3".data := by decide

example : jsTrim "  ab  ".data = "ab".data := by decide

example : splitPath "a.b".data = ["a".data, "b".data] := by decide

example : renderF 3 (.cons "name".data (.str "Ann".data) .nil) "Hello \x7b\x7bname\x7d\x7d".data
    = some "Hello Ann".data := by decide

example :
    renderF 3 (.cons "flag".data (.bool true) (.cons "other".data (.bool false) .nil))
      "\x7b\x7b#if flag\x7d\x7dY\x7b\x7b/if\x7d\x7d\x7b\x7b#if other\x7d\x7dN\x7b\x7b/if\x7d\x7d".data
    = some "Y".data := by decide

example :
    renderF 6 (.cons "xs".data (.list (.cons (.str "a".data) (.cons (.str "b".data) .nil))) .nil)
      "\x7b\x7b#each xs as x\x7d\x7d-\x7b\x7bx\x7d\x7d\x7b\x7b/each\x7d\x7d".data
    = some "-a-b".data := by decide

example : renderF 1 .nil [] = some [] := by decide

example : renderF 3 (.cons "name".data (.str "Jo".data) .nil)
    "Hi \x7b\x7bname\x7d\x7d, id \x7b\x7bid\x7d\x7d".data = some "Hi Jo, id ".data := by decide

example : mergeContent "BASE".data "\x7b\x7b> parent\x7d\x7d\nEXTRA".data = "BASE\nEXTRA".data := by decide

example : mergeContent "$&".data "\x7b\x7b> parent\x7d\x7d".data = "\x7b\x7b> parent\x7d\x7d".data := by decide

example :
    getInheritanceChain
      [("id1".data, mkT "id1".data (some "id2".data) []),
       ("id2".data, mkT "id2".data (some "id1".data) [])] "id1".data
    = .error (.circular "id1".data) := by decide

example :
    (resolveTemplate
      [("a".data, mkT "a".data none "A".data),
       ("b".data, mkT "b".data (some "a".data) "\x7b\x7b> parent\x7d\x7dB".data),
       ("c".data, mkT "c".data (some "b".data) "\x7b\x7b> parent\x7d\x7dC".data)] "c".data).map
      Template.content = .ok "ABC".data := by decide

example :
    (extractVariables "\x7b\x7b#each xs as x\x7d\x7d\x7b\x7bx\x7d\x7d\x7b\x7b/each\x7d\x7d".data).map
      TemplateVar.name = ["x".data, "xs".data] := by decide

example : getNestedValue (.cons "a".data (.obj .nil) .nil) "a.toString".data
    = .nativeFn "toString".data := rfl

example : getNestedValue (.cons "a".data (.obj .nil) .nil) "a.constructor".data
    = .nativeFn "Object".data := rfl

example : getNestedValue (.cons "a".data (.obj .nil) .nil) "a.__proto__.toString".data
    = .nativeFn "toString".data := rfl

example : getNestedValue (.cons "a".data (.obj .nil) .nil) "a.__proto__.__proto__".data
    = .vnull := rfl

example : getNestedValue envXs "xs.hasOwnProperty".data = .nativeFn "hasOwnProperty".data := rfl

example : getNestedValue envXs "xs.__proto__.length".data = .num 0 := rfl

example : isTruthy .arrayProto = false := rfl

example : jsString (.nativeFn "push".data)
    = "function push() \x7b [native code] \x7d".data := rfl

theorem passOnce_cycX (render1 : Env → Str → Option Str) :
    passOnceW render1 cycEnv tX = some tY := rfl

theorem passOnce_cycY (render1 : Env → Str → Option Str) :
    passOnceW render1 cycEnv tY = some tX := rfl

theorem renderLoop_cyc (n : Nat) : ∀ render1 : Env → Str → Option Str,
    renderLoopW render1 n cycEnv tX tY = none ∧ renderLoopW render1 n cycEnv tY tX = none := by
  induction n with
  | zero =>
    intro r1
    constructor <;> simp [renderLoopW] <;> decide
  | succ n ih =>
    intro r1
    constructor
    · rw [renderLoopW, if_neg (by decide), passOnce_cycY]
      exact (ih r1).2
    · rw [renderLoopW, if_neg (by decide), passOnce_cycX]
      exact (ih r1).1

theorem renderF_cyc : ∀ n, renderF n cycEnv tX = none := by
  intro n
  match n with
  | 0 => rfl
  | 1 => rfl
  | n + 2 =>
    rw [renderF, renderLoopW, if_neg (by decide), passOnce_cycX]
    show Option.map stripVars (renderLoopW (fun e s => renderF (n + 1) e s) n cycEnv tX tY) = none
    rw [(renderLoop_cyc n (fun e s => renderF (n + 1) e s)).1]
    rfl

/-- C1 counterexample: with the template referencing x and the cyclic
environment binding x to a reference to y and y to a reference to x, the
render fixpoint loop never finishes at any number of passes, so render,
as the source writes it, does not terminate on this input. -/
theorem c1_counterexample : ¬ ∃ n out, renderF n cycEnv tX = some out := by
  rintro ⟨n, out, h⟩
  rw [renderF_cyc n] at h
  exact Option.noConfusion h

/-- C1 amended: the render fixpoint loop carries no iteration cap and no
RenderNonConvergence failure exists; the loop simply re-evaluates the
three passes until two consecutive outputs coincide, and there are
template and environment pairs (the cyclic reference pair) on which it
never terminates, while inputs that do stabilise are returned. -/
theorem c1_render_uncapped :
    (∃ t env, ∀ n, renderF n env t = none)
  ∧ renderF 2 cycEnv "ok".data = some "ok".data :=
  ⟨⟨tX, cycEnv, renderF_cyc⟩, by decide⟩

/-- C4: the conditional truthiness table of the specification holds for
every value class: undefined and null are false, a boolean is itself, a
number is truthy iff nonzero, a string iff nonempty, a list iff
nonempty, and a mapping, including the empty mapping, is always
truthy. -/
theorem c4_truthiness_table :
    isTruthy .undefined = false ∧ isTruthy .vnull = false
  ∧ (∀ b, isTruthy (.bool b) = b)
  ∧ (∀ n : Int, (isTruthy (.num n) = true ↔ n ≠ 0))
  ∧ (∀ s : Str, (isTruthy (.str s) = true ↔ s ≠ []))
  ∧ (∀ items, (isTruthy (.list items) = true ↔ items ≠ .nil))
  ∧ (∀ kvs, isTruthy (.obj kvs) = true) := by
  refine ⟨rfl, rfl, fun b => rfl, fun n => ?_, fun s => ?_, fun items => ?_, fun kvs => rfl⟩
  · simp [isTruthy]
  · simp [isTruthy]
  · cases items <;> simp [isTruthy, vlen]

/-- C2 counterexample: on the nested conditional template with an empty
environment (both conditions falsy), processConditionals removes only
the span up to the textually first close marker, leaving the text Y and
a dangling close marker, whereas matching the outer opening with the
final close marker, as the claim states, would erase the whole block. -/
theorem c2_counterexample :
    processConditionals .nil nestedIfT = "Y\x7b\x7b/if\x7d\x7d".data
  ∧ "Y\x7b\x7b/if\x7d\x7d".data ≠ ([] : Str) := ⟨by decide, by decide⟩

/-- C2 amended: block matching is depth-aware for loops only.  A loop
over xs whose body holds a nested loop over ys pairs the outer opening
with the final close marker (rendering fully), and a loop whose body
holds conditional markers is unaffected by them; a conditional block is
matched lazily, the opening pairing with the textually first subsequent
close marker, so the outer opening of the nested conditional template
consumes only up to the first close marker. -/
theorem c2_block_matching :
    renderF 12 loopEnv
      "\x7b\x7b#each xs as x\x7d\x7d\x7b\x7b#each ys as y\x7d\x7d(\x7b\x7bx\x7d\x7d\x7b\x7by\x7d\x7d)\x7b\x7b/each\x7d\x7d\x7b\x7b/each\x7d\x7d".data
      = some "(a1)(b1)".data
  ∧ renderF 12 loopEnv
      "\x7b\x7b#each xs as x\x7d\x7d\x7b\x7b#if f\x7d\x7d(\x7b\x7bx\x7d\x7d)\x7b\x7b/if\x7d\x7d\x7b\x7b/each\x7d\x7d".data
      = some "(a)(b)".data
  ∧ processConditionals envATrue nestedIfT = "\x7b\x7b#if b\x7d\x7dXY\x7b\x7b/if\x7d\x7d".data :=
  ⟨by decide, by decide, by decide⟩

/-- C3 counterexample: on the extraction template the returned names are
exactly x, a, xs: the loop-bound item name x does appear (collected as a
plain reference from the loop body), and the nested conditional's
condition b, though it occurs as a conditional's condition, is missing
(the conditional scan is non-overlapping and the outer match consumes
the inner opening). -/
theorem c3_counterexample :
    (extractVariables extractT).map TemplateVar.name = ["x".data, "a".data, "xs".data]
  ∧ "x".data ∈ (extractVariables extractT).map TemplateVar.name
  ∧ "b".data ∉ (extractVariables extractT).map TemplateVar.name :=
  ⟨by decide, by decide, by decide⟩

theorem dedupAcc_nodup {α : Type} [DecidableEq α] :
    ∀ (l seen : List α), (dedupAcc seen l).Nodup ∧ ∀ x ∈ dedupAcc seen l, x ∉ seen := by
  intro l
  induction l with
  | nil => intro seen; simp [dedupAcc]
  | cons x rest ih =>
    intro seen
    by_cases h : x ∈ seen
    · simpa [dedupAcc, h] using ih seen
    · have hr := ih (x :: seen)
      refine ⟨?_, ?_⟩
      · simp only [dedupAcc, h, if_false]
        refine List.Nodup.cons (fun hx => ?_) hr.1
        exact (hr.2 x hx) (List.mem_cons_self x seen)
      · intro y hy
        simp only [dedupAcc, h, if_false, List.mem_cons] at hy
        rcases hy with rfl | hy
        · exact h
        · exact fun hs => (hr.2 y hy) (List.mem_cons_of_mem x hs)

theorem map_mkVar_name : ∀ l : List Str, (l.map mkVar).map TemplateVar.name = l := by
  intro l
  induction l with
  | nil => rfl
  | cons x rest ih => simp only [List.map_cons, ih, mkVar]

theorem map_mkVar_type : ∀ l : List Str,
    (l.map mkVar).map TemplateVar.type = (l.map mkVar).map (fun _ => "string".data) := by
  intro l
  induction l with
  | nil => rfl
  | cons x rest ih => simp only [List.map_cons, ih, mkVar]

theorem map_mkVar_required : ∀ l : List Str,
    (l.map mkVar).map TemplateVar.required = (l.map mkVar).map (fun _ => true) := by
  intro l
  induction l with
  | nil => rfl
  | cons x rest ih => simp only [List.map_cons, ih, mkVar]

/-- C3 amended: for every template text, extractVariables returns at
most one entry per distinct collected name (the collected names are the
trimmed captures of the three non-overlapping scans: plain references,
non-overlapping conditional matches' conditions, and non-overlapping
loop matches' source paths; the loop's item binder is itself not added
by the loop scan, though body references to it are collected as plain
references), and every returned entry carries type string and required
true. -/
theorem c3_extract_shape (t : Str) :
    ((extractVariables t).map TemplateVar.name).Nodup
  ∧ (extractVariables t).map TemplateVar.type
      = (extractVariables t).map (fun _ => "string".data)
  ∧ (extractVariables t).map TemplateVar.required
      = (extractVariables t).map (fun _ => true) := by
  refine ⟨?_, ?_, ?_⟩
  · rw [extractVariables, map_mkVar_name]
    exact (dedupAcc_nodup (varCaps t 0 ++ condCaps t 0 ++ loopCaps t 0) []).1
  · rw [extractVariables, map_mkVar_type]
  · rw [extractVariables, map_mkVar_required]

/-- C8 counterexample: with the self-reproducing environment the
fixpoint loop stabilises on the template itself, but the final cleanup
then deletes the inner marker and creates a brand-new variable marker
around ab, so the first render returns that marker while re-rendering
the output erases it: render of render differs from render. -/
theorem c8_counterexample :
    renderF 2 selfEnv selfT = some "\x7b\x7bab\x7d\x7d".data
  ∧ renderF 3 selfEnv "\x7b\x7bab\x7d\x7d".data = some []
  ∧ some ([] : Str) ≠ some "\x7b\x7bab\x7d\x7d".data :=
  ⟨by decide, by decide, by decide⟩

theorem renderLoopW_self (render1 : Env → Str → Option Str) :
    ∀ (k : Nat) (env : Env) (s : Str), renderLoopW render1 k env s s = some s := by
  intro k env s
  cases k <;> simp [renderLoopW]

/-- C8 amended: render is idempotent at a true fixpoint: whenever a text
is unchanged by one full pass (loops, conditionals, variables) and by
the final cleanup, rendering it returns it unchanged; the counterexample
shows the restriction is needed because the cleanup can strip a
self-reproducing marker and thereby create a marker that a re-render
erases. -/
theorem c8_idempotent_at_fixpoint (env : Env) (fix : Str) (m : Nat)
    (hm : 1 ≤ m)
    (hfix : passOnceW (fun e s => renderF m e s) env fix = some fix)
    (hclean : stripVars fix = fix) :
    renderF (m + 1) env fix = some fix := by
  rw [renderF]
  by_cases hempty : fix = ([] : Str)
  · subst hempty
    rw [renderLoopW_self]
    rfl
  · obtain ⟨k, rfl⟩ : ∃ k, m = k + 1 := ⟨m - 1, by omega⟩
    rw [renderLoopW, if_neg hempty, hfix]
    show Option.map stripVars (renderLoopW (fun e s => renderF (k + 1) e s) k env fix fix)
      = some fix
    rw [renderLoopW_self]
    simp [hclean]

/-- C8 witness: the plain text hello is a pass fixpoint and cleanup
fixpoint, and rendering it returns it unchanged. -/
theorem c8_idempotent_at_fixpoint_witness :
    1 ≤ 1
  ∧ passOnceW (fun e s => renderF 1 e s) .nil "hello".data = some "hello".data
  ∧ stripVars "hello".data = "hello".data
  ∧ renderF 2 .nil "hello".data = some "hello".data :=
  ⟨Nat.le_refl 1, by decide, by decide,
    c8_idempotent_at_fixpoint .nil "hello".data 1 (Nat.le_refl 1) (by decide) (by decide)⟩

/-- C9 counterexample: resolving the dotted path xs.0 against an
environment where xs is a list (not a mapping) yields the list element,
not the undefined sentinel, because the JS in operator admits canonical
index keys (and length) on arrays. -/
theorem c9_counterexample :
    getNestedValue envXs "xs.0".data = .str "a".data
  ∧ getNestedValue envXs "xs.0".data ≠ .undefined
  ∧ getNestedValue envXs "xs.length".data = .num 1 :=
  ⟨rfl, fun h => Value.noConfusion h, rfl⟩

/-- C9 amended: resolution is total and never fails: any segment applied
to a scalar, null, undefined or a native function yields the undefined
sentinel; on a mapping a missing own key falls back to the members the
JS in operator inherits from Object.prototype (which resolve to the
prototype object or native functions, as the toString conjunct shows),
and only a segment that is neither owned nor inherited yields undefined;
a list behaves likewise over its canonical indices and length and the
Array.prototype chain (the push conjunct); and a variable resolving to
undefined substitutes as empty text, the missing-variable scenario
rendering as stated. -/
theorem c9_resolution_total :
    (∀ (v : Value) (part : Str) (parts : List Str), noProps v = true →
        gnvGo v (part :: parts) = .undefined)
  ∧ (∀ (kvs : KVList) (part : Str) (parts : List Str), kvLookup kvs part = none →
        objProtoHit part = none → gnvGo (.obj kvs) (part :: parts) = .undefined)
  ∧ (∀ (items : VList) (part : Str) (parts : List Str), part ≠ "length".data →
        canonIndex part = none → arrProtoHit part = none →
        gnvGo (.list items) (part :: parts) = .undefined)
  ∧ (∀ (items : VList) (part : Str) (parts : List Str) (i : Nat), part ≠ "length".data →
        canonIndex part = some i → vget items i = none → arrProtoHit part = none →
        gnvGo (.list items) (part :: parts) = .undefined)
  ∧ getNestedValue joEnv "toString".data = .nativeFn "toString".data
  ∧ getNestedValue envXs "xs.push".data = .nativeFn "push".data
  ∧ renderF 3 joEnv "Hi \x7b\x7bname\x7d\x7d, id \x7b\x7bid\x7d\x7d".data = some "Hi Jo, id ".data := by
  refine ⟨?_, ?_, ?_, ?_, rfl, rfl, by decide⟩
  · intro v part parts hv
    cases v with
    | undefined => rfl
    | vnull => rfl
    | bool b => rfl
    | num n => rfl
    | str s => rfl
    | nativeFn name => rfl
    | list items => exact absurd hv (by simp [noProps])
    | obj kvs => exact absurd hv (by simp [noProps])
    | objectProto => exact absurd hv (by simp [noProps])
    | arrayProto => exact absurd hv (by simp [noProps])
  · intro kvs part parts h hproto
    simp only [gnvGo, h, hproto]
  · intro items part parts hlen hci hproto
    simp only [gnvGo, listOwnLookup, if_neg hlen, hci, hproto]
  · intro items part parts i hlen hci hv hproto
    simp only [gnvGo, listOwnLookup, if_neg hlen, hci, hv, hproto]

/-- C9 witness: the four undefined-degradation cases at concrete
inputs. -/
theorem c9_resolution_total_witness :
    gnvGo (.num 5) ["a".data] = .undefined
  ∧ gnvGo (.obj .nil) ["a".data] = .undefined
  ∧ gnvGo (.list .nil) ["q".data] = .undefined
  ∧ gnvGo (.list .nil) ["0".data] = .undefined :=
  ⟨c9_resolution_total.1 (.num 5) "a".data [] rfl,
   c9_resolution_total.2.1 .nil "a".data [] rfl rfl,
   c9_resolution_total.2.2.1 .nil "q".data [] (by decide) rfl rfl,
   c9_resolution_total.2.2.2.1 .nil "0".data [] 0 (by decide) rfl rfl rfl⟩

theorem expandDollar_nodollar (matched pre suf : Str) :
    ∀ r : Str, '$' ∉ r → expandDollar matched pre suf r = r := by
  intro r
  induction r with
  | nil => intro h; rfl
  | cons c rest ih =>
    intro h
    rw [List.mem_cons] at h
    push_neg at h
    obtain ⟨h1, h2⟩ := h
    have hcne : ¬ (c = '$') := fun hc => h1 hc.symm
    rw [expandDollar.eq_def]
    simp only [if_neg hcne, ih h2]

theorem mcGo_nodollar (repl orig : Str) (h : '$' ∉ repl) :
    ∀ (s : Str) (pos k : Nat), mcGo repl orig s pos k = mcSpecGo repl s k := by
  intro s
  induction s with
  | nil => intro pos k; cases k <;> rfl
  | cons c rest ih =>
    intro pos k
    cases k with
    | succ k2 =>
      simp only [mcGo, mcSpecGo]
      exact ih (pos + 1) k2
    | zero =>
      cases hm : matchSplice (c :: rest) with
      | none =>
        simp only [mcGo, mcSpecGo, hm]
        rw [ih (pos + 1) 0]
      | some len =>
        simp only [mcGo, mcSpecGo, hm]
        rw [expandDollar_nodollar _ _ _ repl h, ih (pos + 1) (len - 1)]

/-- C7 counterexample: a parent content consisting of the JS replacement
pattern dollar-ampersand makes mergeContent reinsert the matched splice
marker instead of the ancestor content: the child content consisting of
the marker resolves to the marker itself, not to the parent content. -/
theorem c7_counterexample :
    mergeContent "$&".data "\x7b\x7b> parent\x7d\x7d".data = "\x7b\x7b> parent\x7d\x7d".data
  ∧ "\x7b\x7b> parent\x7d\x7d".data ≠ "$&".data := ⟨by decide, by decide⟩

/-- C7 amended: every occurrence of the splice marker in the child
content is replaced by the accumulated ancestor content interpreted as a
JS string replacement; whenever that ancestor content contains no dollar
character the replacement is the ancestor content literally (the
specification reading), the BASE and EXTRA scenario holds, and the
root-to-leaf fold hands a grandchild's marker the fully merged
multi-generation ancestor content. -/
theorem c7_mergeContent_splice :
    (∀ parentC childC : Str, '$' ∉ parentC →
        mergeContent parentC childC = mergeContentSpec parentC childC)
  ∧ mergeContent "BASE".data "\x7b\x7b> parent\x7d\x7d\nEXTRA".data = "BASE\nEXTRA".data
  ∧ (resolveTemplate gcStore "c".data).map Template.content = .ok "ABC".data := by
  refine ⟨?_, by decide, by decide⟩
  intro pc cc h
  exact mcGo_nodollar pc cc h cc 0 0

/-- C7 witness: splicing the dollar-free BASE agrees with the literal
specification splice. -/
theorem c7_mergeContent_splice_witness :
    ('$' ∉ "BASE".data)
  ∧ mergeContent "BASE".data "\x7b\x7b> parent\x7d\x7d\nEXTRA".data
      = mergeContentSpec "BASE".data "\x7b\x7b> parent\x7d\x7d\nEXTRA".data :=
  ⟨by decide, c7_mergeContent_splice.1 "BASE".data _ (by decide)⟩

theorem replaceOrAppend_not_mem (cv : TemplateVar) :
    ∀ p : List TemplateVar, cv.name ∉ p.map TemplateVar.name →
      replaceOrAppend p cv = p ++ [cv] := by
  intro p
  induction p with
  | nil => intro _; rfl
  | cons v rest ih =>
    intro h
    rw [List.map_cons, List.mem_cons] at h
    push_neg at h
    rw [replaceOrAppend, if_neg (fun he => h.1 he.symm), ih h.2, List.cons_append]

theorem replaceOrAppend_mem (cv : TemplateVar) :
    ∀ p : List TemplateVar, (p.map TemplateVar.name).Nodup →
      cv.name ∈ p.map TemplateVar.name →
      replaceOrAppend p cv = p.map (fun v => if v.name = cv.name then cv else v) := by
  intro p
  induction p with
  | nil => intro _ hm; exact absurd hm (by simp)
  | cons v rest ih =>
    intro hnd hm
    rw [List.map_cons] at hnd hm
    by_cases he : v.name = cv.name
    · rw [replaceOrAppend, if_pos he, List.map_cons, if_pos he]
      have hrest : ∀ x ∈ rest, ¬ (x.name = cv.name) := by
        intro x hx hxe
        exact (List.nodup_cons.1 hnd).1 (he ▸ hxe ▸ List.mem_map_of_mem TemplateVar.name hx)
      have : rest.map (fun v => if v.name = cv.name then cv else v) = rest.map (fun v => v) := by
        refine List.map_congr_left (fun a ha => ?_)
        rw [if_neg (hrest a ha)]
      rw [this, List.map_id']
    · have hm2 : cv.name ∈ rest.map TemplateVar.name := by
        rcases List.mem_cons.1 hm with h1 | h2
        · exact absurd h1.symm he
        · exact h2
      rw [replaceOrAppend, if_neg he, List.map_cons, if_neg he,
        ih (List.nodup_cons.1 hnd).2 hm2]

theorem replaceOrAppend_names (cv : TemplateVar) :
    ∀ p : List TemplateVar, cv.name ∈ p.map TemplateVar.name →
      (replaceOrAppend p cv).map TemplateVar.name = p.map TemplateVar.name := by
  intro p
  induction p with
  | nil => intro hm; exact absurd hm (by simp)
  | cons v rest ih =>
    intro hm
    by_cases he : v.name = cv.name
    · rw [replaceOrAppend, if_pos he, List.map_cons, List.map_cons, he]
    · have hm2 : cv.name ∈ rest.map TemplateVar.name := by
        rcases List.mem_cons.1 (by rwa [List.map_cons] at hm) with h1 | h2
        · exact absurd h1.symm he
        · exact h2
      rw [replaceOrAppend, if_neg he, List.map_cons, List.map_cons, ih hm2]

/-- C6: for name-keyed variable lists (no duplicate names on either
side), the merge keeps all parent entries in their original order with a
parent entry replaced in place by the same-named child entry, and
appends the child-only entries after the parent entries in child
order. -/
theorem c6_merge_variables :
    ∀ (cs ps : List TemplateVar),
      (ps.map TemplateVar.name).Nodup → (cs.map TemplateVar.name).Nodup →
      mergeVariables ps cs =
        ps.map (fun v => ((cs.find? (fun cv => cv.name == v.name)).getD v))
          ++ cs.filter (fun cv => decide (cv.name ∉ ps.map TemplateVar.name)) := by
  intro cs
  induction cs with
  | nil =>
    intro ps hp hc
    have hmap : ps.map (fun v => ((List.find? (fun cv => cv.name == v.name) []).getD v)) = ps := by
      refine Eq.trans (List.map_congr_left (fun a _ => rfl)) (List.map_id ps)
    rw [show mergeVariables ps [] = ps from rfl, List.filter_nil, List.append_nil]
    exact hmap.symm
  | cons cv rest ih =>
    intro ps hp hc
    rw [List.map_cons] at hc
    have hcv_rest : cv.name ∉ rest.map TemplateVar.name := (List.nodup_cons.1 hc).1
    have hcrest : (rest.map TemplateVar.name).Nodup := (List.nodup_cons.1 hc).2
    have hstep : mergeVariables ps (cv :: rest) = mergeVariables (replaceOrAppend ps cv) rest := rfl
    have hfind_rest_cv : rest.find? (fun cv2 => cv2.name == cv.name) = none := by
      refine List.find?_eq_none.2 (fun x hx => ?_)
      simp only [beq_iff_eq]
      intro hxe
      exact hcv_rest (hxe ▸ List.mem_map_of_mem TemplateVar.name hx)
    rw [hstep]
    by_cases hm : cv.name ∈ ps.map TemplateVar.name
    · have hps' := replaceOrAppend_mem cv ps hp hm
      have hnames := replaceOrAppend_names cv ps hm
      have hnd' : ((replaceOrAppend ps cv).map TemplateVar.name).Nodup := by
        rw [hnames]; exact hp
      rw [ih (replaceOrAppend ps cv) hnd' hcrest]
      have hfilter :
          rest.filter (fun cv2 => decide (cv2.name ∉ (replaceOrAppend ps cv).map TemplateVar.name))
            = (cv :: rest).filter (fun cv2 => decide (cv2.name ∉ ps.map TemplateVar.name)) := by
        rw [List.filter_cons, hnames]
        simp [hm]
      have hmap :
          (replaceOrAppend ps cv).map
              (fun v => ((rest.find? (fun cv2 => cv2.name == v.name)).getD v))
            = ps.map (fun v => (((cv :: rest).find? (fun cv2 => cv2.name == v.name)).getD v)) := by
        rw [hps', List.map_map]
        refine List.map_congr_left (fun v _ => ?_)
        simp only [Function.comp_apply]
        by_cases hveq : v.name = cv.name
        · rw [if_pos hveq]
          have hfc : (cv :: rest).find? (fun cv2 => cv2.name == v.name) = some cv :=
            List.find?_cons_of_pos _ (by simp [hveq])
          rw [hfc, hfind_rest_cv]
          rfl
        · rw [if_neg hveq]
          have hfc : (cv :: rest).find? (fun cv2 => cv2.name == v.name)
              = rest.find? (fun cv2 => cv2.name == v.name) :=
            List.find?_cons_of_neg _ (by simp; exact fun he => hveq he.symm)
          rw [hfc]
      rw [hmap, hfilter]
    · have hps' := replaceOrAppend_not_mem cv ps hm
      have hnames' : (replaceOrAppend ps cv).map TemplateVar.name
          = ps.map TemplateVar.name ++ [cv.name] := by
        rw [hps', List.map_append]
        rfl
      have hnd' : ((replaceOrAppend ps cv).map TemplateVar.name).Nodup := by
        rw [hnames']
        simp [List.nodup_append, hp, hm]
      rw [ih (replaceOrAppend ps cv) hnd' hcrest, hps', List.map_append]
      have h1 : ps.map (fun v => ((rest.find? (fun cv2 => cv2.name == v.name)).getD v))
          = ps.map (fun v => (((cv :: rest).find? (fun cv2 => cv2.name == v.name)).getD v)) := by
        refine List.map_congr_left (fun v hv => ?_)
        have hvne : ¬ (cv.name = v.name) := by
          intro he
          exact hm (he ▸ List.mem_map_of_mem TemplateVar.name hv)
        have hfc : (cv :: rest).find? (fun cv2 => cv2.name == v.name)
            = rest.find? (fun cv2 => cv2.name == v.name) :=
          List.find?_cons_of_neg _ (by simp [hvne])
        rw [hfc]
      have h2 : ([cv] : List TemplateVar).map
          (fun v => ((rest.find? (fun cv2 => cv2.name == v.name)).getD v)) = [cv] := by
        simp only [List.map_cons, List.map_nil, hfind_rest_cv]
        rfl
      have h3 : rest.filter
            (fun cv2 => decide (cv2.name ∉ (ps ++ [cv]).map TemplateVar.name))
          = rest.filter (fun cv2 => decide (cv2.name ∉ ps.map TemplateVar.name)) := by
        refine List.filter_congr (fun x hx => ?_)
        have hxne : ¬ (x.name = cv.name) := by
          intro he
          exact hcv_rest (he ▸ List.mem_map_of_mem TemplateVar.name hx)
        simp [List.mem_append, hxne]
      have h4 : (cv :: rest).filter (fun cv2 => decide (cv2.name ∉ ps.map TemplateVar.name))
          = cv :: rest.filter (fun cv2 => decide (cv2.name ∉ ps.map TemplateVar.name)) := by
        rw [List.filter_cons]
        simp [hm]
      rw [h1, h2, h3, h4, List.append_assoc]
      rfl

/-- C6 witness: a concrete name-keyed merge, the middle parent entry
replaced in place and the child-only entry appended. -/
theorem c6_merge_variables_witness :
    ((([mkVar "a".data, mkVar "b".data] : List TemplateVar).map TemplateVar.name).Nodup)
  ∧ ((([{ mkVar "b".data with required := false }, mkVar "c".data] :
        List TemplateVar).map TemplateVar.name).Nodup)
  ∧ mergeVariables [mkVar "a".data, mkVar "b".data]
      [{ mkVar "b".data with required := false }, mkVar "c".data]
    = ([mkVar "a".data, mkVar "b".data].map (fun v =>
        ((([{ mkVar "b".data with required := false }, mkVar "c".data] :
            List TemplateVar).find? (fun cv => cv.name == v.name)).getD v)))
      ++ ([{ mkVar "b".data with required := false }, mkVar "c".data] :
          List TemplateVar).filter (fun cv =>
            decide (cv.name ∉ ([mkVar "a".data, mkVar "b".data] :
              List TemplateVar).map TemplateVar.name)) :=
  ⟨by decide, by decide,
    c6_merge_variables _ [mkVar "a".data, mkVar "b".data] (by decide) (by decide)⟩

theorem storeGet_none_of_not_mem : ∀ (store : Store) (k : Str),
    k ∉ store.map Prod.fst → storeGet store k = none := by
  intro store
  induction store with
  | nil => intro k _; rfl
  | cons e rest ih =>
    intro k hk
    obtain ⟨a, t⟩ := e
    rw [List.map_cons, List.mem_cons] at hk
    push_neg at hk
    rw [storeGet, if_neg (fun he => hk.1 he.symm), ih k hk.2]

theorem filterImpLen {α : Type} (q r : α → Bool) (himp : ∀ x, q x = true → r x = true) :
    ∀ l : List α, (l.filter q).length ≤ (l.filter r).length := by
  intro l
  induction l with
  | nil => simp
  | cons a rest ih =>
    rw [List.filter_cons, List.filter_cons]
    cases hq : q a with
    | true =>
      rw [himp a hq]
      simpa using ih
    | false =>
      cases hr : r a with
      | true => simpa using ih.trans (Nat.le_succ _)
      | false => simpa using ih

theorem freshLen_lt {p : Str} {visited : List Str} :
    ∀ keys : List Str, p ∈ keys → p ∉ visited →
      (keys.filter (fun k => decide (k ∉ p :: visited))).length
        < (keys.filter (fun k => decide (k ∉ visited))).length := by
  intro keys
  induction keys with
  | nil => intro h; cases h
  | cons a rest ih =>
    intro hp hnv
    rw [List.filter_cons, List.filter_cons]
    by_cases hap : a = p
    · subst hap
      have h1 : (decide (a ∉ a :: visited)) = false := by simp
      have h2 : (decide (a ∉ visited)) = true := by simpa using hnv
      rw [h1, h2]
      simp only [if_false, if_true]
      refine Nat.lt_succ_of_le (filterImpLen _ _ (fun x hx => ?_) rest)
      simp only [decide_eq_true_eq] at hx ⊢
      intro hxv
      exact hx (List.mem_cons_of_mem _ hxv)
    · have hiff : (decide (a ∉ p :: visited)) = (decide (a ∉ visited)) := by
        simp only [List.mem_cons, decide_eq_decide]
        constructor
        · intro h hv; exact h (Or.inr hv)
        · intro h hpv
          rcases hpv with he | hv
          · exact hap he
          · exact h hv
      have hprest : p ∈ rest := by
        rcases List.mem_cons.1 hp with he | h
        · exact absurd he.symm hap
        · exact h
      rw [hiff]
      cases hd : decide (a ∉ visited) with
      | false => simpa using ih hprest hnv
      | true => simpa using Nat.succ_lt_succ (ih hprest hnv)

theorem freshLen_eq {p : Str} {visited : List Str} :
    ∀ keys : List Str, p ∉ keys →
      keys.filter (fun k => decide (k ∉ p :: visited))
        = keys.filter (fun k => decide (k ∉ visited)) := by
  intro keys hp
  refine List.filter_congr (fun x hx => ?_)
  have hxp : x ≠ p := fun he => hp (he ▸ hx)
  simp only [List.mem_cons, decide_eq_decide]
  constructor
  · intro h hv; exact h (Or.inr hv)
  · intro h hpv
    rcases hpv with he | hv
    · exact hxp he
    · exact h hv

theorem chainGo_no_fuelOut (store : Store) :
    ∀ (fuel : Nat) (cur : Str) (visited chain : List Str),
      ((store.map Prod.fst).filter (fun k => decide (k ∉ visited))).length + 2 ≤ fuel →
      chainGo store fuel cur visited chain ≠ .error .fuelOut := by
  intro fuel
  induction fuel with
  | zero => intro cur visited chain h; omega
  | succ n ih =>
    intro cur visited chain h
    rw [chainGo]
    cases hg : storeGet store cur with
    | none => simp
    | some t =>
      show (match t.parent with
        | none => Except.ok chain
        | some p => if p ∈ visited then Except.error (ChainErr.circular p)
            else chainGo store n p (p :: visited) (chain ++ [p])) ≠ Except.error ChainErr.fuelOut
      cases hpt : t.parent with
      | none => simp
      | some p =>
        show (if p ∈ visited then Except.error (ChainErr.circular p)
            else chainGo store n p (p :: visited) (chain ++ [p])) ≠ Except.error ChainErr.fuelOut
        by_cases hv : p ∈ visited
        · simp [hv]
        · rw [if_neg hv]
          by_cases hpk : p ∈ store.map Prod.fst
          · refine ih p (p :: visited) (chain ++ [p]) ?_
            have := freshLen_lt (store.map Prod.fst) hpk hv
            omega
          · obtain ⟨m, rfl⟩ : ∃ m, n = m + 1 := ⟨n - 1, by omega⟩
            rw [chainGo, storeGet_none_of_not_mem store p hpk]
            simp

theorem lp_to_pl (store : Store) : ∀ (chain : List Str) (cur : Str),
    linkedPrefix store chain = true → chain.getLast? = some cur →
    (storeGet store cur = none ∨ ∃ t, storeGet store cur = some t ∧ t.parent = none) →
    parentLinked store chain = true := by
  intro chain
  induction chain with
  | nil => intro cur _ hl _; exact absurd hl (by simp)
  | cons x rest ih =>
    intro cur hlp hlast hend
    cases rest with
    | nil =>
      have hx : x = cur := by simpa using hlast
      subst hx
      rcases hend with hnone | ⟨t, hsome, hpar⟩
      · simp [parentLinked, hnone]
      · simp [parentLinked, hsome, hpar]
    | cons y rest2 =>
      rw [linkedPrefix] at hlp
      rw [parentLinked]
      rw [Bool.and_eq_true] at hlp ⊢
      refine ⟨hlp.1, ih cur hlp.2 (by simpa using hlast) hend⟩

theorem lp_extend (store : Store) : ∀ (chain : List Str) (cur : Str) (t : Template) (p : Str),
    linkedPrefix store chain = true → chain.getLast? = some cur →
    storeGet store cur = some t → t.parent = some p →
    linkedPrefix store (chain ++ [p]) = true := by
  intro chain
  induction chain with
  | nil => intro cur t p _ hlast _ _; exact absurd hlast (by simp)
  | cons x rest ih =>
    intro cur t p hlp hlast hsome hpar
    cases rest with
    | nil =>
      have hx : x = cur := by simpa using hlast
      subst hx
      show linkedPrefix store (x :: p :: []) = true
      rw [linkedPrefix, hsome, Bool.and_eq_true]
      exact ⟨by simp [hpar], rfl⟩
    | cons y rest2 =>
      rw [linkedPrefix] at hlp
      rw [Bool.and_eq_true] at hlp
      show linkedPrefix store (x :: ((y :: rest2) ++ [p])) = true
      have hrec := ih cur t p hlp.2 (by simpa using hlast) hsome hpar
      cases hcons : (y :: rest2) ++ [p] with
      | nil => exact absurd hcons (by simp)
      | cons z zs =>
        have hz : z = y := by
          have := congrArg List.head? hcons
          simpa using this.symm
        subst hz
        rw [linkedPrefix, Bool.and_eq_true]
        exact ⟨hlp.1, by rw [← hcons]; exact hrec⟩

theorem chainGo_ok (store : Store) :
    ∀ (fuel : Nat) (cur : Str) (visited chain res : List Str),
      chainGo store fuel cur visited chain = .ok res →
      visited = chain.reverse → chain ≠ [] → chain.getLast? = some cur →
      chain.Nodup → linkedPrefix store chain = true →
      res.head? = chain.head? ∧ res.Nodup ∧ parentLinked store res = true := by
  intro fuel
  induction fuel with
  | zero =>
    intro cur visited chain res h _ _ _ _ _
    exact absurd h (by rw [chainGo]; simp)
  | succ n ih =>
    intro cur visited chain res h hvis hne hlast hnd hlp
    rw [chainGo] at h
    cases hg : storeGet store cur with
    | none =>
      rw [hg] at h
      have hres : chain = res := Except.ok.inj h
      subst hres
      exact ⟨rfl, hnd, lp_to_pl store chain cur hlp hlast (Or.inl hg)⟩
    | some t =>
      rw [hg] at h
      replace h : (match t.parent with
        | none => Except.ok chain
        | some p => if p ∈ visited then Except.error (ChainErr.circular p)
            else chainGo store n p (p :: visited) (chain ++ [p])) = Except.ok res := h
      cases hpt : t.parent with
      | none =>
        rw [hpt] at h
        have hres : chain = res := Except.ok.inj h
        subst hres
        exact ⟨rfl, hnd, lp_to_pl store chain cur hlp hlast (Or.inr ⟨t, hg, hpt⟩)⟩
      | some p =>
        rw [hpt] at h
        replace h : (if p ∈ visited then Except.error (ChainErr.circular p)
            else chainGo store n p (p :: visited) (chain ++ [p])) = Except.ok res := h
        by_cases hv : p ∈ visited
        · rw [if_pos hv] at h
          exact absurd h (by simp)
        · rw [if_neg hv] at h
          have hpnotchain : p ∉ chain := fun hmem => hv (hvis ▸ List.mem_reverse.2 hmem)
          have hprops := ih p (p :: visited) (chain ++ [p]) res h
            (by rw [hvis, List.reverse_append]; rfl)
            (by simp)
            (by rw [List.getLast?_concat])
            (by
              rw [List.nodup_append]
              exact ⟨hnd, List.nodup_singleton p, by
                intro a ha hb
                rw [List.mem_singleton] at hb
                exact hpnotchain (hb ▸ ha)⟩)
            (lp_extend store chain cur t p hlp hlast hg hpt)
          refine ⟨?_, hprops.2.1, hprops.2.2⟩
          rw [hprops.1]
          cases chain with
          | nil => exact absurd rfl hne
          | cons c0 ct => rfl

theorem chain_ok_props (store : Store) (id : Str) (res : List Str)
    (h : getInheritanceChain store id = .ok res) :
    res.head? = some id ∧ res.Nodup ∧ parentLinked store res = true := by
  have := chainGo_ok store (store.length + 2) id [id] [id] res h rfl
    (by simp) rfl (List.nodup_singleton id) rfl
  exact ⟨by rw [this.1]; rfl, this.2.1, this.2.2⟩

/-- C5: for every store and id the chain walk terminates (the model fuel
is never exhausted); every successfully returned chain starts at the
queried id, repeats no id, and is exactly the leaf-to-root parent-link
sequence; and on the store with parent cycle id1 to id2 to id1 the walk
fails with a circular-inheritance error naming id1, the first repeated
id, returning no partial chain. -/
theorem c5_inheritance_chain :
    (∀ (store : Store) (id : Str), getInheritanceChain store id ≠ .error .fuelOut)
  ∧ (∀ (store : Store) (id : Str) (res : List Str),
       getInheritanceChain store id = .ok res →
       res.head? = some id ∧ res.Nodup ∧ parentLinked store res = true)
  ∧ getInheritanceChain cycStore "id1".data = .error (.circular "id1".data) := by
  refine ⟨?_, fun store id res h => chain_ok_props store id res h, by decide⟩
  intro store id
  apply chainGo_no_fuelOut
  have hle : ((store.map Prod.fst).filter (fun k => decide (k ∉ ([id] : List Str)))).length
      ≤ store.length := by
    calc ((store.map Prod.fst).filter (fun k => decide (k ∉ ([id] : List Str)))).length
        ≤ (store.map Prod.fst).length := List.length_filter_le _ _
      _ = store.length := List.length_map _ _
  omega

/-- C5 witness: on the acyclic two-template store the chain from b is b
then a: headed at b, duplicate-free, fully parent-linked, and the walk
does not exhaust its fuel. -/
theorem c5_inheritance_chain_witness :
    getInheritanceChain c10Store "b".data ≠ .error .fuelOut
  ∧ getInheritanceChain c10Store "b".data = .ok ["b".data, "a".data]
  ∧ (["b".data, "a".data] : List Str).head? = some "b".data
  ∧ (["b".data, "a".data] : List Str).Nodup
  ∧ parentLinked c10Store ["b".data, "a".data] = true := by
  refine ⟨c5_inheritance_chain.1 c10Store "b".data, by decide, ?_⟩
  have h := c5_inheritance_chain.2.1 c10Store "b".data ["b".data, "a".data] (by decide)
  exact ⟨h.1, h.2.1, h.2.2⟩

theorem getLast?_cons_cons {α : Type} (a b : α) (l : List α) :
    (a :: b :: l).getLast? = (b :: l).getLast? := by
  simp [List.getLast?, List.getLastD_cons]

theorem foldChain_ok_last (store : Store) :
    ∀ (l : List Str) (acc : Option Template) (t : Template),
      foldChain store l acc = .ok t → l ≠ [] →
      ∃ (last : Str) (cur : Template), l.getLast? = some last
        ∧ storeGet store last = some cur ∧ t.parent = cur.parent := by
  intro l
  induction l with
  | nil => intro acc t _ hne; exact absurd rfl hne
  | cons i rest ih =>
    intro acc t h _
    rw [foldChain] at h
    cases hg : storeGet store i with
    | none =>
      rw [hg] at h
      exact absurd h (by simp)
    | some cur =>
      rw [hg] at h
      cases acc with
      | none =>
        replace h : foldChain store rest (some cur) = Except.ok t := h
        rcases rest with _ | ⟨r0, rs⟩
        · replace h : (Except.ok cur : Except RErr Template) = Except.ok t := h
          refine ⟨i, cur, rfl, hg, ?_⟩
          rw [← Except.ok.inj h]
        · obtain ⟨last, cur2, hlast, hsg, hpar⟩ := ih _ t h (by simp)
          exact ⟨last, cur2, by rw [getLast?_cons_cons]; exact hlast, hsg, hpar⟩
      | some r =>
        replace h : foldChain store rest (some (mergeTemplates r cur)) = Except.ok t := h
        rcases rest with _ | ⟨r0, rs⟩
        · replace h : (Except.ok (mergeTemplates r cur) : Except RErr Template) = Except.ok t := h
          refine ⟨i, cur, rfl, hg, ?_⟩
          rw [← Except.ok.inj h]
          rfl
        · obtain ⟨last, cur2, hlast, hsg, hpar⟩ := ih _ t h (by simp)
          exact ⟨last, cur2, by rw [getLast?_cons_cons]; exact hlast, hsg, hpar⟩

/-- C10: mergeTemplates carries the child's parent reference into the
merged result (never clearing it) and takes every required scalar field
from the child; consequently for a template with a parent, a successful
resolveTemplate returns a template still carrying the leaf's immediate
parent id. -/
theorem c10_merged_parent_fields :
    (∀ p c : Template, (mergeTemplates p c).parent = c.parent
      ∧ (mergeTemplates p c).id = c.id ∧ (mergeTemplates p c).name = c.name
      ∧ (mergeTemplates p c).category = c.category
      ∧ (mergeTemplates p c).version = c.version
      ∧ (mergeTemplates p c).description = c.description)
  ∧ (∀ (store : Store) (id : Str) (t leaf : Template) (pid : Str),
      resolveTemplate store id = .ok t → storeGet store id = some leaf →
      leaf.parent = some pid → t.parent = some pid) := by
  refine ⟨fun p c => ⟨rfl, rfl, rfl, rfl, rfl, rfl⟩, ?_⟩
  intro store id t leaf pid h hg hp
  rw [resolveTemplate, hg] at h
  replace h : (match leaf.parent with
    | none => Except.ok leaf
    | some _ => match getInheritanceChain store id with
      | .error e => Except.error (RErr.chainFail e)
      | .ok chain => foldChain store chain.reverse none) = Except.ok t := h
  rw [hp] at h
  replace h : (match getInheritanceChain store id with
    | .error e => Except.error (RErr.chainFail e)
    | .ok chain => foldChain store chain.reverse none) = Except.ok t := h
  cases hch : getInheritanceChain store id with
  | error e =>
    rw [hch] at h
    exact absurd h (by simp)
  | ok chain =>
    rw [hch] at h
    have hhead := (chain_ok_props store id chain hch).1
    have hne : chain ≠ [] := by
      intro hnil
      rw [hnil] at hhead
      exact Option.noConfusion hhead
    have hrne : chain.reverse ≠ [] := by
      intro hnil
      exact hne (by simpa using congrArg List.reverse hnil)
    obtain ⟨last, cur, hlast, hsg, hpar⟩ := foldChain_ok_last store chain.reverse none t h hrne
    have hlid : last = id := by
      rw [List.getLast?_reverse, hhead] at hlast
      exact (Option.some.inj hlast).symm
    subst hlid
    rw [hg] at hsg
    rw [hpar, ← Option.some.inj hsg, hp]

/-- C10 witness: resolving b over the acyclic two-template store yields
the merged template, whose parent field is still a. -/
theorem c10_merged_parent_fields_witness :
    resolveTemplate c10Store "b".data
      = .ok (mergeTemplates (mkT "a".data none "A".data) (mkT "b".data (some "a".data) "B".data))
  ∧ (mergeTemplates (mkT "a".data none "A".data)
      (mkT "b".data (some "a".data) "B".data)).parent = some "a".data :=
  ⟨rfl, c10_merged_parent_fields.2 c10Store "b".data
    (mergeTemplates (mkT "a".data none "A".data) (mkT "b".data (some "a".data) "B".data))
    (mkT "b".data (some "a".data) "B".data) "a".data rfl rfl rfl⟩
